/-
Verification of the c-chat backend core (Rust, `src-tauri/src`): the MCP
session registry with transport negotiation (`lib.rs`, `mcp.rs`) and the
local settings-sync control server (`sync.rs`).

Shallow embedding conventions:
  * stateful Tauri commands become pure state-passing functions whose extra
    arguments stand for the outcomes of external effects (the network
    connector, socket binding, the RPC engine);
  * `Result<T, String>` becomes `Except String T`;
  * `serde_json::Value` becomes the inductive `Json` below, together with an
    executable serializer and parser modelling `Value::to_string` /
    `serde_json::from_str` on the integer-number fragment of JSON (compact
    output, `i64`-style integers; no floats, no surrounding whitespace);
  * lock scopes (which the Rust borrow checker fixes statically) are
    recorded as explicit event traces where a claim is about them.
-/
import Mathlib

namespace CChat

/-! ## Transport selection (`mcp.rs:6-9`, `lib.rs:32-42`)

`TransportType` is the two-variant enum from `mcp.rs`.  The `match` at the
top of `mcp_connect` (`lib.rs:32-42`) picks a transport from the optional
`transport` argument and the URL text. -/

inductive TransportType where
  | Sse
  | StreamableHttp
deriving DecidableEq

/-- `prefMatch pat l` holds when `pat` is an initial segment of `l`
(character-list version of Rust's `str::starts_with`). -/
def prefMatch : List Char → List Char → Bool
  | [], _ => true
  | _ :: _, [] => false
  | p :: ps, c :: cs => p == c && prefMatch ps cs

/-- `infMatch pat l` holds when `pat` occurs contiguously somewhere in `l`. -/
def infMatch (pat : List Char) : List Char → Bool
  | [] => prefMatch pat []
  | c :: cs => prefMatch pat (c :: cs) || infMatch pat cs

/-- Rust's `str::contains(pat)` for string patterns: substring occurrence. -/
def strContainsSub (s pat : String) : Bool := infMatch pat.data s.data

/-- The transport chosen by `mcp_connect` (`lib.rs:32-42`): an explicit
`Some("sse")` / `Some("http")` hint wins; any other hint (or `None`) falls
through to the URL heuristic `url.contains("/sse")`. -/
def selectTransport (url : String) (transport : Option String) : TransportType :=
  match transport with
  | some s =>
    if s = "sse" then .Sse
    else if s = "http" then .StreamableHttp
    else if strContainsSub url "/sse" then .Sse else .StreamableHttp
  | none => if strContainsSub url "/sse" then .Sse else .StreamableHttp

/-! ## JSON values (`serde_json::Value`)

The commands traffic in `serde_json::Value`.  `Json` is its inductive
counterpart on the integer-number fragment: `Number` is modelled as an
unbounded `Int` (covering the `i64`/`u64` cases; floats are out of the
model), objects as ordered association lists. -/

inductive Json where
  | null
  | bool (b : Bool)
  | num (n : Int)
  | str (s : String)
  | arr (elems : List Json)
  | obj (fields : List (String × Json))

/-! ## The MCP client registry (`lib.rs:15-17, 24-81`)

`McpState.clients` is a `Mutex<HashMap<String, Arc<McpClient>>>`.  We model
the map as an association list from ids to opaque handle identities
(`Nat` stands for the `Arc<McpClient>` pointer identity), with
`HashMap::get` / `HashMap::insert` as `regFind` / `regInsert`. -/

abbrev Handle := Nat

abbrev Registry := List (String × Handle)

/-- `HashMap::get`: the value stored at `id`, if any. -/
def regFind : Registry → String → Option Handle
  | [], _ => none
  | (k, v) :: rest, id => if k = id then some v else regFind rest id

/-- `HashMap::insert`: store `h` at `id`, overwriting an existing entry. -/
def regInsert : Registry → String → Handle → Registry
  | [], id, h => [(id, h)]
  | (k, v) :: rest, id, h =>
    if k = id then (id, h) :: rest else (k, v) :: regInsert rest id h

/-- `mcp_connect` (`lib.rs:24-50`).  The network connector `mcp::connect`
(`mcp.rs:13-29`) is external I/O; its outcome is the `connector` argument,
a function of the URL and the chosen transport.  On connector error the
function returns the stringified cause without touching the map
(`lib.rs:44-46`); on success it locks the map and inserts (`lib.rs:48`). -/
def mcp_connect (connector : String → TransportType → Except String Handle)
    (reg : Registry) (id url : String) (transport : Option String) :
    Registry × Except String Unit :=
  match connector url (selectTransport url transport) with
  | .error e => (reg, .error e)
  | .ok h => (regInsert reg id h, .ok ())

/-- `mcp_list_tools` (`lib.rs:52-62`).  The RPC engine call
`client.list_tools(..)` plus the `serde_json::to_value` step is the external
`rpc` argument, a function of the handle.  An absent id yields the
`"Client not found"` error from `ok_or` (`lib.rs:55`). -/
def mcp_list_tools (rpc : Handle → Except String Json)
    (reg : Registry) (id : String) : Except String Json :=
  match regFind reg id with
  | none => .error "Client not found"
  | some h => rpc h

/-- `Value::as_object().cloned()` (`lib.rs:76`): the member list when the
value is a JSON object, else `None`. -/
def jsonAsObject : Json → Option (List (String × Json))
  | .obj fields => some fields
  | _ => none

/-- `mcp_call_tool` (`lib.rs:64-81`).  The RPC engine call
`client.call_tool(param)` plus serialization is the external `rpc` argument,
applied to the handle, the tool name, and the argument bag
`args.as_object().cloned()`.  An absent id yields `"Client not found"`
(`lib.rs:72`). -/
def mcp_call_tool (rpc : Handle → String → Option (List (String × Json)) → Except String Json)
    (reg : Registry) (id name : String) (args : Json) : Except String Json :=
  match regFind reg id with
  | none => .error "Client not found"
  | some h => rpc h name (jsonAsObject args)

/-! ## Lock scopes of `mcp_list_tools` / `mcp_call_tool` (`lib.rs:53-62, 64-81`)

In both commands the guard `let clients = state.clients.lock().await`
(`lib.rs:54`, `lib.rs:71`) stays alive until the end of the function body,
because `client` borrows from it; the RPC await (`lib.rs:57-60`,
`lib.rs:79`) therefore happens while the lock is held, and the guard drops
only at function exit.  We record each command's lock-relevant steps, in
source order, as a trace of events. -/

inductive LockEv where
  | acquire
  | lookup
  | rpcCall
  | release
deriving DecidableEq

/-- Event order of `mcp_list_tools`: acquire (`lib.rs:54`), lookup
(`lib.rs:55`), RPC await (`lib.rs:57-60`), guard drop at function exit. -/
def mcp_list_tools_lockTrace : List LockEv := [.acquire, .lookup, .rpcCall, .release]

/-- Event order of `mcp_call_tool`: acquire (`lib.rs:71`), lookup
(`lib.rs:72`), RPC await (`lib.rs:79`), guard drop at function exit. -/
def mcp_call_tool_lockTrace : List LockEv := [.acquire, .lookup, .rpcCall, .release]

/-- The map lock is released before the RPC call proceeds: some `release`
event strictly precedes some `rpcCall` event in the trace. -/
def releasedBeforeRpc (tr : List LockEv) : Prop :=
  ∃ i j : Fin tr.length, (i : Nat) < (j : Nat) ∧
    tr.get i = LockEv.release ∧ tr.get j = LockEv.rpcCall

instance (tr : List LockEv) : Decidable (releasedBeforeRpc tr) := by
  unfold releasedBeforeRpc; infer_instance

/-- The lock is held across the RPC: an `acquire` precedes the `rpcCall`
and every `release` comes after it. -/
def heldAcrossRpc (tr : List LockEv) : Prop :=
  (∃ i j : Fin tr.length, (i : Nat) < (j : Nat) ∧
    tr.get i = LockEv.acquire ∧ tr.get j = LockEv.rpcCall) ∧
  (∀ i j : Fin tr.length, tr.get i = LockEv.rpcCall → tr.get j = LockEv.release →
    (i : Nat) < (j : Nat))

instance (tr : List LockEv) : Decidable (heldAcrossRpc tr) := by
  unfold heldAcrossRpc; infer_instance

/-! ## The sync control server lifecycle (`sync.rs:14-88`)

`SyncService.shutdown_tx` is a `Mutex<Option<oneshot::Sender<()>>>`: the
single lifecycle slot.  We model the slot as `Option Nat` (the `Nat` is the
identity of the stored one-shot sender).  `start_sync_server`
(`sync.rs:32-79`) first claims the slot (`sync.rs:38-48`) and only then
resolves the local IP and binds the listener (`sync.rs:65-67`); those
network steps are the external `net` argument (`.ok (ip, port)` or the
stringified failure).  `stop_sync_server` (`sync.rs:81-88`) takes the
sender out of the slot, if any; `send` on the taken sender can fail if the
receiver is gone, which the `sendOk` argument decides. -/

def start_sync_server (slot : Option Nat) (freshTx : Nat)
    (net : Except String (String × Nat)) (_settings : String) :
    Option Nat × Except String String :=
  if slot.isSome then
    (slot, .error "Server already running")
  else
    match net with
    | .error e => (some freshTx, .error e)
    | .ok (ip, port) =>
      (some freshTx, .ok ("http://" ++ ip ++ ":" ++ toString port ++ "/settings"))

def stop_sync_server (slot : Option Nat) (sendOk : Nat → Bool) :
    Option Nat × Except String Unit :=
  match slot with
  | none => (none, .ok ())
  | some tx =>
    (none, if sendOk tx then .ok () else .error "Failed to send shutdown signal")

/-! ## serde_json serialization and parsing (integer fragment)

`update_settings` stores `payload.to_string()` (`sync.rs:101`) and
`get_settings` reads it back through `serde_json::from_str` with an
empty-object fallback (`sync.rs:92`).  `serde_json` is an external crate;
we model its `Value::to_string` / `from_str` pair executably on the
fragment `Json` covers: compact output (no whitespace), `i64`-style
integer numbers, and serde's escape table for strings (`\"`, `\\`, `\b`,
`\t`, `\n`, `\f`, `\r`, and `\u00XX` for the remaining control
characters).  The parser is fuel-indexed; `Json.parse` supplies fuel that
suffices for any document the input length admits and requires the whole
input to be consumed, as `from_str` does. -/

abbrev Chars := List Char

/-- Lowercase hexadecimal digit character for a value below 16. -/
def hexDigit : Nat → Char
  | 0 => '0' | 1 => '1' | 2 => '2' | 3 => '3' | 4 => '4'
  | 5 => '5' | 6 => '6' | 7 => '7' | 8 => '8' | 9 => '9'
  | 10 => 'a' | 11 => 'b' | 12 => 'c' | 13 => 'd' | 14 => 'e' | _ => 'f'

/-- serde's escape of one string character. -/
def escChar (c : Char) : Chars :=
  if c = '"' then ['\\', '"']
  else if c = '\\' then ['\\', '\\']
  else if c = Char.ofNat 8 then ['\\', 'b']
  else if c = Char.ofNat 9 then ['\\', 't']
  else if c = Char.ofNat 10 then ['\\', 'n']
  else if c = Char.ofNat 12 then ['\\', 'f']
  else if c = Char.ofNat 13 then ['\\', 'r']
  else if c.toNat < 32 then
    ['\\', 'u', '0', '0', hexDigit (c.toNat / 16), hexDigit (c.toNat % 16)]
  else [c]

/-- serde's escape of a whole string body. -/
def escChars : Chars → Chars
  | [] => []
  | c :: cs => escChar c ++ escChars cs

/-- Decimal digit character for a value below 10. -/
def digitChar : Nat → Char
  | 0 => '0' | 1 => '1' | 2 => '2' | 3 => '3' | 4 => '4'
  | 5 => '5' | 6 => '6' | 7 => '7' | 8 => '8' | _ => '9'

/-- Decimal digit characters of `n`, most significant first. -/
def natChars (n : Nat) : Chars :=
  if n < 10 then [digitChar n]
  else natChars (n / 10) ++ [digitChar (n % 10)]
termination_by n
decreasing_by exact Nat.div_lt_self (by omega) (by omega)

/-- Decimal characters of an integer: optional minus sign, then digits. -/
def intChars (i : Int) : Chars :=
  if i < 0 then '-' :: natChars i.natAbs else natChars i.natAbs

mutual
/-- `Value::to_string` on the modelled fragment, as a character list. -/
def serV : Json → Chars
  | .null => ['n', 'u', 'l', 'l']
  | .bool b => if b then ['t', 'r', 'u', 'e'] else ['f', 'a', 'l', 's', 'e']
  | .num i => intChars i
  | .str s => '"' :: (escChars s.data ++ ['"'])
  | .arr [] => ['[', ']']
  | .arr (v :: vs) => '[' :: (serV v ++ serElemsTl vs)
  | .obj [] => ['\x7b', '\x7d']
  | .obj (f :: fs) => '\x7b' :: (serField f ++ serFieldsTl fs)
/-- One object member: quoted escaped key, colon, value. -/
def serField : String × Json → Chars
  | (k, v) => '"' :: (escChars k.data ++ ('"' :: (':' :: serV v)))
/-- The tail of a non-empty array body: `,elem` repeated, then `]`. -/
def serElemsTl : List Json → Chars
  | [] => [']']
  | v :: vs => ',' :: (serV v ++ serElemsTl vs)
/-- The tail of a non-empty object body: `,member` repeated, then `}`. -/
def serFieldsTl : List (String × Json) → Chars
  | [] => ['\x7d']
  | f :: fs => ',' :: (serField f ++ serFieldsTl fs)
end

/-- Strip an expected literal from the front of the input. -/
def stripPre : Chars → Chars → Option Chars
  | [], input => some input
  | _ :: _, [] => none
  | p :: ps, c :: cs => if p = c then stripPre ps cs else none

/-- Value of a hexadecimal digit character (either case). -/
def hexVal (c : Char) : Option Nat :=
  if '0' ≤ c ∧ c ≤ '9' then some (c.toNat - 48)
  else if 'a' ≤ c ∧ c ≤ 'f' then some (c.toNat - 87)
  else if 'A' ≤ c ∧ c ≤ 'F' then some (c.toNat - 55)
  else none

/-- Parse a string body after the opening quote, undoing escapes, up to and
including the closing quote; returns the body and the rest of the input.
Unescaped control characters are rejected, as serde rejects them. -/
def parseStrChars : Chars → Option (Chars × Chars)
  | [] => none
  | c :: cs =>
    if c = '"' then some ([], cs)
    else if c = '\\' then
      match cs with
      | [] => none
      | e :: es =>
        if e = '"' then (parseStrChars es).map fun p => ('"' :: p.1, p.2)
        else if e = '\\' then (parseStrChars es).map fun p => ('\\' :: p.1, p.2)
        else if e = '/' then (parseStrChars es).map fun p => ('/' :: p.1, p.2)
        else if e = 'b' then (parseStrChars es).map fun p => (Char.ofNat 8 :: p.1, p.2)
        else if e = 't' then (parseStrChars es).map fun p => (Char.ofNat 9 :: p.1, p.2)
        else if e = 'n' then (parseStrChars es).map fun p => (Char.ofNat 10 :: p.1, p.2)
        else if e = 'f' then (parseStrChars es).map fun p => (Char.ofNat 12 :: p.1, p.2)
        else if e = 'r' then (parseStrChars es).map fun p => (Char.ofNat 13 :: p.1, p.2)
        else if e = 'u' then
          match es with
          | h1 :: h2 :: h3 :: h4 :: es2 =>
            match hexVal h1, hexVal h2, hexVal h3, hexVal h4 with
            | some d1, some d2, some d3, some d4 =>
              (parseStrChars es2).map fun p =>
                (Char.ofNat (4096 * d1 + 256 * d2 + 16 * d3 + d4) :: p.1, p.2)
            | _, _, _, _ => none
          | _ => none
        else none
    else if c.toNat < 32 then none
    else (parseStrChars cs).map fun p => (c :: p.1, p.2)

/-- Consume a maximal run of decimal digits, folding them onto `acc`. -/
def parseDigitsAcc : Nat → Chars → Nat × Chars
  | acc, [] => (acc, [])
  | acc, c :: cs =>
    if c.isDigit then parseDigitsAcc (10 * acc + (c.toNat - 48)) cs else (acc, c :: cs)

/-- Parse a non-negative decimal number: at least one digit, maximal run. -/
def parseNumPos : Chars → Option (Nat × Chars)
  | [] => none
  | c :: cs => if c.isDigit then some (parseDigitsAcc (c.toNat - 48) cs) else none

mutual
/-- Fuel-indexed parser for one JSON value (compact integer fragment). -/
def parseVal : Nat → Chars → Option (Json × Chars)
  | 0, _ => none
  | fuel + 1, input =>
    match input with
    | [] => none
    | c :: cs =>
      if c = 'n' then (stripPre ['u', 'l', 'l'] cs).map fun r => (Json.null, r)
      else if c = 't' then (stripPre ['r', 'u', 'e'] cs).map fun r => (Json.bool true, r)
      else if c = 'f' then (stripPre ['a', 'l', 's', 'e'] cs).map fun r => (Json.bool false, r)
      else if c = '"' then (parseStrChars cs).map fun p => (Json.str (String.mk p.1), p.2)
      else if c = '-' then (parseNumPos cs).map fun p => (Json.num (-(p.1 : Int)), p.2)
      else if c.isDigit then (parseNumPos (c :: cs)).map fun p => (Json.num (p.1 : Int), p.2)
      else if c = '[' then
        match cs with
        | [] => none
        | d :: ds =>
          if d = ']' then some (Json.arr [], ds)
          else (parseElems fuel (d :: ds)).map fun p => (Json.arr p.1, p.2)
      else if c = '\x7b' then
        match cs with
        | [] => none
        | d :: ds =>
          if d = '\x7d' then some (Json.obj [], ds)
          else (parseFields fuel (d :: ds)).map fun p => (Json.obj p.1, p.2)
      else none
/-- One-or-more comma-separated array elements, then the closing bracket.
The empty array is handled in `parseVal`, so no trailing comma parses. -/
def parseElems : Nat → Chars → Option (List Json × Chars)
  | 0, _ => none
  | fuel + 1, input =>
    match parseVal fuel input with
    | none => none
    | some (v, r) =>
      match r with
      | [] => none
      | d :: ds =>
        if d = ',' then (parseElems fuel ds).map fun p => (v :: p.1, p.2)
        else if d = ']' then some ([v], ds)
        else none
/-- One-or-more comma-separated object members, then the closing brace. -/
def parseFields : Nat → Chars → Option (List (String × Json) × Chars)
  | 0, _ => none
  | fuel + 1, input =>
    match input with
    | [] => none
    | c :: cs =>
      if c = '"' then
        match parseStrChars cs with
        | none => none
        | some (k, r) =>
          match r with
          | [] => none
          | d :: ds =>
            if d = ':' then
              match parseVal fuel ds with
              | none => none
              | some (v, r2) =>
                match r2 with
                | [] => none
                | e :: es =>
                  if e = ',' then
                    (parseFields fuel es).map fun p => ((String.mk k, v) :: p.1, p.2)
                  else if e = '\x7d' then some ([(String.mk k, v)], es)
                  else none
            else none
      else none
end

/-- `Value::to_string()` (`sync.rs:101`) on the modelled fragment. -/
def Json.serialize (v : Json) : String := String.mk (serV v)

/-- `serde_json::from_str::<Value>` (`sync.rs:92`) on the modelled
fragment: parse one value spanning the whole input.  The fuel
`s.length + 1` suffices for any value the input can denote, since the
parser consumes at least one character per unit of fuel it spends. -/
def Json.parse (s : String) : Option Json :=
  match parseVal (s.length + 1) s.data with
  | some (v, []) => some v
  | _ => none

/-- A remainder that cannot extend a serialized number: empty input or a
non-digit head.  Every JSON delimiter (`,`, `]`, `}`) qualifies, as does
the end of the document. -/
def numStop : Chars → Bool
  | [] => true
  | c :: _ => !c.isDigit

mutual
/-- Node count of a value; the parser spends at most one unit of fuel per
node, so any fuel above `sizeJ` suffices. -/
def sizeJ : Json → Nat
  | .null => 1
  | .bool _ => 1
  | .num _ => 1
  | .str _ => 1
  | .arr xs => 1 + sizeL xs
  | .obj fs => 1 + sizeF fs
/-- Node count of an array body. -/
def sizeL : List Json → Nat
  | [] => 0
  | v :: vs => 1 + sizeJ v + sizeL vs
/-- Node count of an object body. -/
def sizeF : List (String × Json) → Nat
  | [] => 0
  | f :: fs => 1 + sizeJ f.2 + sizeF fs
end

/-! ## The settings HTTP handlers (`sync.rs:90-107`) -/

/-- `get_settings` (`sync.rs:90-94`): always an HTTP 200 whose body is the
stored string parsed as JSON, with `unwrap_or(json!({}))` supplying the
empty object when parsing fails. -/
def get_settings (stored : String) : Nat × Json :=
  (200, (Json.parse stored).getD (Json.obj []))

/-- What one `update_settings` call produces: the replacement stored
string, the HTTP status, and the event emitted to the host. -/
structure PostOutcome where
  newSettings : String
  status : Nat
  eventName : String
  eventPayload : Json

/-- `update_settings` (`sync.rs:96-107`): overwrite the stored string with
the serialized payload (the prior stored value is discarded unread),
emit `sync-settings-received` with the payload, and answer 200. -/
def update_settings (payload : Json) : PostOutcome :=
  { newSettings := Json.serialize payload
    status := 200
    eventName := "sync-settings-received"
    eventPayload := payload }

/-! ## Registry lookup/insert lemmas (shared helpers) -/

theorem regFind_regInsert_self (reg : Registry) (id : String) (h : Handle) :
    regFind (regInsert reg id h) id = some h := by
  induction reg with
  | nil => simp [regInsert, regFind]
  | cons kv rest ih =>
    obtain ⟨k, v⟩ := kv
    by_cases hk : k = id
    · simp [regInsert, regFind, hk]
    · simp [regInsert, regFind, hk, ih]

theorem regFind_regInsert_ne (reg : Registry) (id : String) (h : Handle)
    (id2 : String) (hne : id2 ≠ id) :
    regFind (regInsert reg id h) id2 = regFind reg id2 := by
  have hne' : ¬(id = id2) := fun hh => hne hh.symm
  induction reg with
  | nil => simp [regInsert, regFind, hne']
  | cons kv rest ih =>
    obtain ⟨k, v⟩ := kv
    by_cases hk : k = id
    · subst hk
      simp [regInsert, regFind, hne']
    · simp [regInsert, regFind, hk, ih]

/-! ## Claim theorems: registry and transport -/

/-- C1: transport selection in `mcp_connect` is a pure total function of
`(url, hint)`: a present hint equal to one of the two recognized tokens
(`"sse"` / `"http"`) selects that transport regardless of URL shape, and an
absent or unrecognized hint falls through to the heuristic, which picks the
SSE transport exactly when the URL text contains the substring `"/sse"` and
the streaming-HTTP transport otherwise. -/
theorem mcp_connect_transport_selection (url : String) (hint : Option String) :
    (hint = some "sse" → selectTransport url hint = TransportType.Sse)
  ∧ (hint = some "http" → selectTransport url hint = TransportType.StreamableHttp)
  ∧ (hint ≠ some "sse" → hint ≠ some "http" →
      selectTransport url hint =
        if strContainsSub url "/sse" then TransportType.Sse
        else TransportType.StreamableHttp) := by
  refine ⟨?_, ?_, ?_⟩
  · rintro rfl
    simp [selectTransport]
  · rintro rfl
    simp [selectTransport]
  · intro h1 h2
    cases hint with
    | none => rfl
    | some s =>
      have hs1 : ¬(s = "sse") := fun hh => h1 (by rw [hh])
      have hs2 : ¬(s = "http") := fun hh => h2 (by rw [hh])
      simp [selectTransport, hs1, hs2]

/-- Witness for C1: an explicit `"http"` hint beats an `/sse`-shaped URL,
and an unrecognized hint falls back to the `/sse` heuristic. -/
theorem mcp_connect_transport_selection_witness :
    selectTransport "http://h/sse" (some "http") = TransportType.StreamableHttp
  ∧ selectTransport "http://h/sse" (some "wat") = TransportType.Sse := by
  constructor
  · exact (mcp_connect_transport_selection "http://h/sse" (some "http")).2.1 rfl
  · rw [(mcp_connect_transport_selection "http://h/sse" (some "wat")).2.2
      (by decide) (by decide)]
    decide

/-- C5: when the connector fails, `mcp_connect` returns the stringified
cause and the registry is exactly what it was before the call — no entry
is inserted, removed, or overwritten. -/
theorem mcp_connect_failure_preserves_registry
    (connector : String → TransportType → Except String Handle)
    (reg : Registry) (id url : String) (hint : Option String) (e : String)
    (hc : connector url (selectTransport url hint) = .error e) :
    mcp_connect connector reg id url hint = (reg, .error e) := by
  simp [mcp_connect, hc]

/-- Witness for C5 at a concrete always-failing connector. -/
theorem mcp_connect_failure_preserves_registry_witness :
    mcp_connect (fun _ _ => .error "connection refused") [("a", 3)] "b" "http://x" none
      = ([("a", 3)], .error "connection refused") :=
  mcp_connect_failure_preserves_registry _ _ _ _ _ _ rfl

/-- C7: a successful `mcp_connect` for `id` overwrites the mapping — the
registry afterwards resolves `id` to the newly connected handle (so the old
handle is no longer reachable via `id` whenever it differs from the new
one), every other id resolves exactly as before, and the command reports
success. -/
theorem mcp_connect_success_overwrites
    (connector : String → TransportType → Except String Handle)
    (reg : Registry) (id url : String) (hint : Option String) (h : Handle)
    (hc : connector url (selectTransport url hint) = .ok h) :
    regFind (mcp_connect connector reg id url hint).1 id = some h
  ∧ (mcp_connect connector reg id url hint).2 = .ok ()
  ∧ ∀ id2, id2 ≠ id →
      regFind (mcp_connect connector reg id url hint).1 id2 = regFind reg id2 := by
  refine ⟨?_, ?_, ?_⟩
  · simp [mcp_connect, hc, regFind_regInsert_self]
  · simp [mcp_connect, hc]
  · intro id2 hne
    simp [mcp_connect, hc, regFind_regInsert_ne _ _ _ _ hne]

/-- Witness for C7: reconnecting an existing id `"a"` replaces its handle
3 with the fresh handle 9 and leaves id `"b"` untouched. -/
theorem mcp_connect_success_overwrites_witness :
    regFind (mcp_connect (fun _ _ => .ok 9) [("a", 3), ("b", 4)] "a" "http://x" none).1 "a"
      = some 9
  ∧ regFind (mcp_connect (fun _ _ => .ok 9) [("a", 3), ("b", 4)] "a" "http://x" none).1 "b"
      = some 4 := by
  have h := mcp_connect_success_overwrites (fun _ _ => .ok 9) [("a", 3), ("b", 4)]
    "a" "http://x" none 9 rfl
  exact ⟨h.1, by rw [h.2.2 "b" (by decide)]; rfl⟩

/-- C8: looking up an id that is absent from the registry makes both
`mcp_list_tools` and `mcp_call_tool` return the `"Client not found"` error
— never a success and never any other failure, whatever the RPC engine
would have done. -/
theorem lookup_absent_client_not_found
    (rpcL : Handle → Except String Json)
    (rpcC : Handle → String → Option (List (String × Json)) → Except String Json)
    (reg : Registry) (id name : String) (args : Json)
    (habs : regFind reg id = none) :
    mcp_list_tools rpcL reg id = .error "Client not found"
  ∧ mcp_call_tool rpcC reg id name args = .error "Client not found" := by
  constructor
  · simp [mcp_list_tools, habs]
  · simp [mcp_call_tool, habs]

/-- Witness for C8 on the empty registry. -/
theorem lookup_absent_client_not_found_witness :
    mcp_list_tools (fun _ => .ok Json.null) [] "nope" = .error "Client not found"
  ∧ mcp_call_tool (fun _ _ _ => .ok Json.null) [] "nope" "tool" Json.null
      = .error "Client not found" :=
  lookup_absent_client_not_found _ _ [] "nope" "tool" Json.null rfl

/-! ## Claim theorems: lock scope of list/call (C2) -/

/-- C2 counterexample: in the code as written the registry lock is *not*
released before the RPC call proceeds — in both `mcp_list_tools` and
`mcp_call_tool` the guard drops only at function exit, after the RPC
await, so no `release` precedes the `rpcCall` in either lock trace. -/
theorem registry_lock_not_released_before_rpc :
    ¬ releasedBeforeRpc mcp_list_tools_lockTrace
  ∧ ¬ releasedBeforeRpc mcp_call_tool_lockTrace := by
  constructor <;> decide

/-- C2 amended: the registry map lock is held for the whole of
`mcp_list_tools` and `mcp_call_tool`, across the RPC call — acquisition
precedes the RPC and release follows it — so the operations are serialized
in their entirety, not only through the lookup step. -/
theorem registry_lock_held_across_rpc :
    heldAcrossRpc mcp_list_tools_lockTrace
  ∧ heldAcrossRpc mcp_call_tool_lockTrace := by
  constructor <;> decide

/-! ## Claim theorems: control-server lifecycle (C3, C4, C6) -/

/-- C3 counterexample: `stop_sync_server` on an empty lifecycle slot
succeeds with `Ok(())` — it does not return a NotRunning error.  The
`if let Some(tx) = shutdown_tx.take()` at `sync.rs:84` simply skips the
send and falls through to `Ok(())`. -/
theorem stop_sync_server_empty_slot_succeeds :
    stop_sync_server none (fun _ => true) = (none, .ok ()) := rfl

/-- C3 amended: calling stop with no server running is a successful no-op:
it returns `Ok(())` and leaves the slot empty, for any behaviour of the
one-shot send. -/
theorem stop_sync_server_empty_slot_noop (sendOk : Nat → Bool) :
    stop_sync_server none sendOk = (none, .ok ()) := rfl

/-- C4: the code claims the lifecycle slot *before* resolving the local IP
and binding the listener (`sync.rs:38-48` precedes `sync.rs:65-67`), so a
binding failure returns the error with the slot left occupied, and an
immediately following start fails with `"Server already running"` instead
of succeeding. -/
theorem start_sync_server_bind_failure_keeps_slot :
    start_sync_server none 7 (.error "bind: permission denied") "s"
      = (some 7, .error "bind: permission denied")
  ∧ (start_sync_server
       (start_sync_server none 7 (.error "bind: permission denied") "s").1
       8 (.ok ("192.168.1.2", 4242)) "s").2
      = .error "Server already running" :=
  ⟨rfl, rfl⟩

/-- C6: starting while the slot is occupied fails immediately with
`"Server already running"` and leaves the slot exactly as it was (the
running server's sender stays in place), whatever the prospective fresh
sender, network outcome, or settings. -/
theorem start_sync_server_already_running (tx freshTx : Nat)
    (net : Except String (String × Nat)) (settings : String) :
    start_sync_server (some tx) freshTx net settings
      = (some tx, .error "Server already running") := by
  simp [start_sync_server]

/-! ## Round-trip lemmas: numbers -/

theorem digitChar_isDigit (d : Nat) (h : d < 10) :
    (digitChar d).isDigit = true ∧ (digitChar d).toNat - 48 = d := by
  interval_cases d <;> exact ⟨rfl, rfl⟩

theorem natChars_head (n : Nat) : ∃ d t, natChars n = d :: t ∧ d.isDigit = true := by
  induction n using Nat.strong_induction_on with
  | _ n ih =>
    rw [natChars.eq_def]
    by_cases h : n < 10
    · exact ⟨digitChar n, [], by simp [h], (digitChar_isDigit n h).1⟩
    · obtain ⟨d, t, hdt, hd⟩ := ih (n / 10) (Nat.div_lt_self (by omega) (by omega))
      exact ⟨d, t ++ [digitChar (n % 10)], by simp [h, hdt], hd⟩

theorem natChars_digits (n : Nat) : ∀ c ∈ natChars n, c.isDigit = true := by
  induction n using Nat.strong_induction_on with
  | _ n ih =>
    rw [natChars.eq_def]
    by_cases h : n < 10
    · intro c hc
      simp only [if_pos h, List.mem_singleton] at hc
      subst hc
      exact (digitChar_isDigit n h).1
    · intro c hc
      simp only [if_neg h, List.mem_append, List.mem_singleton] at hc
      rcases hc with hc | hc
      · exact ih (n / 10) (Nat.div_lt_self (by omega) (by omega)) c hc
      · subst hc
        exact (digitChar_isDigit (n % 10) (Nat.mod_lt _ (by omega))).1

theorem parseDigitsAcc_append (ds : Chars) (hds : ∀ c ∈ ds, c.isDigit = true) :
    ∀ (acc : Nat) (rest : Chars), numStop rest = true →
      parseDigitsAcc acc (ds ++ rest)
        = (List.foldl (fun a c => 10 * a + (c.toNat - 48)) acc ds, rest) := by
  induction ds with
  | nil =>
    intro acc rest hrest
    cases rest with
    | nil => rfl
    | cons c t =>
      have hc : c.isDigit = false := by
        simpa [numStop] using hrest
      simp [parseDigitsAcc, hc]
  | cons c t ih =>
    intro acc rest hrest
    have hc : c.isDigit = true := hds c (List.mem_cons_self ..)
    simp only [List.cons_append, parseDigitsAcc, hc, if_pos, List.foldl_cons]
    exact ih (fun x hx => hds x (List.mem_cons_of_mem _ hx)) _ rest hrest

theorem natChars_val (n : Nat) :
    List.foldl (fun a c => 10 * a + (c.toNat - 48)) 0 (natChars n) = n := by
  induction n using Nat.strong_induction_on with
  | _ n ih =>
    rw [natChars.eq_def]
    by_cases h : n < 10
    · simp only [if_pos h, List.foldl_cons, List.foldl_nil]
      rw [(digitChar_isDigit n h).2]
      omega
    · simp only [if_neg h, List.foldl_append, List.foldl_cons, List.foldl_nil]
      rw [ih (n / 10) (Nat.div_lt_self (by omega) (by omega)),
        (digitChar_isDigit (n % 10) (Nat.mod_lt _ (by omega))).2]
      omega

theorem parseNumPos_natChars (n : Nat) (rest : Chars) (hrest : numStop rest = true) :
    parseNumPos (natChars n ++ rest) = some (n, rest) := by
  obtain ⟨d, t, hdt, hd⟩ := natChars_head n
  have hall := natChars_digits n
  rw [hdt] at hall ⊢
  simp only [List.cons_append, parseNumPos, hd, if_pos]
  rw [parseDigitsAcc_append t (fun c hc => hall c (List.mem_cons_of_mem _ hc)) _ rest hrest]
  have hv := natChars_val n
  rw [hdt] at hv
  simp only [List.foldl_cons] at hv
  simp only [Nat.mul_zero, Nat.zero_add] at hv
  rw [hv]

/-! ## Round-trip lemmas: literals and delimiters -/

theorem stripPre_append (pat rest : Chars) : stripPre pat (pat ++ rest) = some rest := by
  induction pat with
  | nil => rfl
  | cons p ps ih => simp [stripPre, ih]

/-! ## Round-trip lemmas: strings -/

theorem hexVal_hexDigit (d : Nat) (h : d < 16) : hexVal (hexDigit d) = some d := by
  interval_cases d <;> rfl

theorem parseStrChars_escChars (body : Chars) : ∀ rest : Chars,
    parseStrChars (escChars body ++ ('"' :: rest)) = some (body, rest) := by
  induction body with
  | nil =>
    intro rest
    show parseStrChars ('"' :: rest) = some ([], rest)
    rw [parseStrChars.eq_def]
    simp
  | cons c cs ih =>
    intro rest
    simp only [escChars, List.append_assoc]
    by_cases h1 : c = '"'
    · subst h1
      rw [show escChar '"' = ['\\', '"'] from rfl]
      rw [parseStrChars.eq_def]
      simp [ih]
    · by_cases h2 : c = '\\'
      · subst h2
        rw [show escChar '\\' = ['\\', '\\'] from rfl]
        rw [parseStrChars.eq_def]
        simp [ih]
      · by_cases h3 : c = Char.ofNat 8
        · subst h3
          rw [show escChar (Char.ofNat 8) = ['\\', 'b'] from rfl]
          rw [parseStrChars.eq_def]
          simp [ih]
        · by_cases h4 : c = Char.ofNat 9
          · subst h4
            rw [show escChar (Char.ofNat 9) = ['\\', 't'] from rfl]
            rw [parseStrChars.eq_def]
            simp [ih]
          · by_cases h5 : c = Char.ofNat 10
            · subst h5
              rw [show escChar (Char.ofNat 10) = ['\\', 'n'] from rfl]
              rw [parseStrChars.eq_def]
              simp [ih]
            · by_cases h6 : c = Char.ofNat 12
              · subst h6
                rw [show escChar (Char.ofNat 12) = ['\\', 'f'] from rfl]
                rw [parseStrChars.eq_def]
                simp [ih]
              · by_cases h7 : c = Char.ofNat 13
                · subst h7
                  rw [show escChar (Char.ofNat 13) = ['\\', 'r'] from rfl]
                  rw [parseStrChars.eq_def]
                  simp [ih]
                · by_cases h8 : c.toNat < 32
                  · have hh3 : hexVal (hexDigit (c.toNat / 16)) = some (c.toNat / 16) :=
                      hexVal_hexDigit _ (by omega)
                    have hh4 : hexVal (hexDigit (c.toNat % 16)) = some (c.toNat % 16) :=
                      hexVal_hexDigit _ (by omega)
                    have hch : Char.ofNat (16 * (c.toNat / 16) + c.toNat % 16) = c := by
                      rw [show 16 * (c.toNat / 16) + c.toNat % 16 = c.toNat from by omega,
                        Char.ofNat_toNat]
                    simp only [escChar, if_neg h1, if_neg h2, if_neg h3, if_neg h4,
                      if_neg h5, if_neg h6, if_neg h7, if_pos h8, List.cons_append,
                      List.nil_append]
                    have h0 : hexVal '0' = some 0 := rfl
                    rw [parseStrChars.eq_def]
                    simp [h0, hh3, hh4, ih, hch]
                  · simp only [escChar, if_neg h1, if_neg h2, if_neg h3, if_neg h4,
                      if_neg h5, if_neg h6, if_neg h7, if_neg h8, List.cons_append,
                      List.nil_append]
                    rw [parseStrChars.eq_def]
                    simp [h1, h2, h8, ih]

theorem numStop_serElemsTl (xs : List Json) (r : Chars) :
    numStop (serElemsTl xs ++ r) = true := by
  cases xs <;> rfl

theorem numStop_serFieldsTl (fs : List (String × Json)) (r : Chars) :
    numStop (serFieldsTl fs ++ r) = true := by
  cases fs <;> rfl

/-! ## Round-trip lemmas: parser step equations -/

theorem parseVal_succ_null (f : Nat) (cs : Chars) :
    parseVal (f + 1) ('n' :: cs)
      = (stripPre ['u', 'l', 'l'] cs).map fun r => (Json.null, r) := rfl

theorem parseVal_succ_true (f : Nat) (cs : Chars) :
    parseVal (f + 1) ('t' :: cs)
      = (stripPre ['r', 'u', 'e'] cs).map fun r => (Json.bool true, r) := rfl

theorem parseVal_succ_false (f : Nat) (cs : Chars) :
    parseVal (f + 1) ('f' :: cs)
      = (stripPre ['a', 'l', 's', 'e'] cs).map fun r => (Json.bool false, r) := rfl

theorem parseVal_succ_quote (f : Nat) (cs : Chars) :
    parseVal (f + 1) ('"' :: cs)
      = (parseStrChars cs).map fun p => (Json.str (String.mk p.1), p.2) := rfl

theorem parseVal_succ_minus (f : Nat) (cs : Chars) :
    parseVal (f + 1) ('-' :: cs)
      = (parseNumPos cs).map fun p => (Json.num (-(p.1 : Int)), p.2) := rfl

theorem parseVal_succ_digit (f : Nat) (d : Char) (cs : Chars) (hd : d.isDigit = true) :
    parseVal (f + 1) (d :: cs)
      = (parseNumPos (d :: cs)).map fun p => (Json.num (p.1 : Int), p.2) := by
  have h1 : ¬(d = 'n') := fun he => by rw [he] at hd; exact absurd hd (by decide)
  have h2 : ¬(d = 't') := fun he => by rw [he] at hd; exact absurd hd (by decide)
  have h3 : ¬(d = 'f') := fun he => by rw [he] at hd; exact absurd hd (by decide)
  have h4 : ¬(d = '"') := fun he => by rw [he] at hd; exact absurd hd (by decide)
  have h5 : ¬(d = '-') := fun he => by rw [he] at hd; exact absurd hd (by decide)
  rw [parseVal.eq_def]
  simp [h1, h2, h3, h4, h5, hd]

theorem parseVal_succ_arrNil (f : Nat) (ds : Chars) :
    parseVal (f + 1) ('[' :: ']' :: ds) = some (Json.arr [], ds) := rfl

theorem parseVal_succ_arrCons (f : Nat) (d : Char) (ds : Chars) (hd : ¬(d = ']')) :
    parseVal (f + 1) ('[' :: d :: ds)
      = (parseElems f (d :: ds)).map fun p => (Json.arr p.1, p.2) := by
  rw [parseVal.eq_def]
  simp [hd]

theorem parseVal_succ_objNil (f : Nat) (ds : Chars) :
    parseVal (f + 1) ('\x7b' :: '\x7d' :: ds) = some (Json.obj [], ds) := rfl

theorem parseVal_succ_objQuote (f : Nat) (ds : Chars) :
    parseVal (f + 1) ('\x7b' :: '"' :: ds)
      = (parseFields f ('"' :: ds)).map fun p => (Json.obj p.1, p.2) := rfl

theorem parseElems_succ (f : Nat) (input : Chars) :
    parseElems (f + 1) input
      = match parseVal f input with
        | none => none
        | some (v, r) =>
          match r with
          | [] => none
          | d :: ds =>
            if d = ',' then (parseElems f ds).map fun p => (v :: p.1, p.2)
            else if d = ']' then some ([v], ds)
            else none := rfl

theorem parseFields_succ (f : Nat) (cs : Chars) :
    parseFields (f + 1) ('"' :: cs)
      = match parseStrChars cs with
        | none => none
        | some (k, r) =>
          match r with
          | [] => none
          | d :: ds =>
            if d = ':' then
              match parseVal f ds with
              | none => none
              | some (v, r2) =>
                match r2 with
                | [] => none
                | e :: es =>
                  if e = ',' then
                    (parseFields f es).map fun p => ((String.mk k, v) :: p.1, p.2)
                  else if e = '\x7d' then some ([(String.mk k, v)], es)
                  else none
            else none := rfl

/-! ## Round-trip lemmas: serializer head shapes -/

theorem sizeJ_ge_one (v : Json) : 1 ≤ sizeJ v := by
  cases v <;> simp [sizeJ]

theorem serV_head (v : Json) : ∃ d t, serV v = d :: t ∧ ¬(d = ']') := by
  cases v with
  | null => exact ⟨'n', ['u', 'l', 'l'], by simp [serV], by decide⟩
  | bool b =>
    cases b with
    | true => exact ⟨'t', ['r', 'u', 'e'], by simp [serV], by decide⟩
    | false => exact ⟨'f', ['a', 'l', 's', 'e'], by simp [serV], by decide⟩
  | str s => exact ⟨'"', escChars s.data ++ ['"'], by simp [serV], by decide⟩
  | arr xs =>
    cases xs with
    | nil => exact ⟨'[', [']'], by simp [serV], by decide⟩
    | cons x t => exact ⟨'[', serV x ++ serElemsTl t, by simp [serV], by decide⟩
  | obj fs =>
    cases fs with
    | nil => exact ⟨'\x7b', ['\x7d'], by simp [serV], by decide⟩
    | cons g t => exact ⟨'\x7b', serField g ++ serFieldsTl t, by simp [serV], by decide⟩
  | num i =>
    by_cases hi : i < 0
    · exact ⟨'-', natChars i.natAbs, by simp [serV, intChars, hi], by decide⟩
    · obtain ⟨d, t, hdt, hd⟩ := natChars_head i.natAbs
      refine ⟨d, t, ?_, ?_⟩
      · simp [serV, intChars, hi, hdt]
      · intro he
        rw [he] at hd
        exact absurd hd (by decide)

/-! ## The round trip itself -/

mutual

theorem rtVal : ∀ (v : Json) (f : Nat) (rest : Chars), sizeJ v ≤ f → numStop rest = true →
    parseVal f (serV v ++ rest) = some (v, rest)
  | .null, f, rest, hf, hrest => by
    cases f with
    | zero => simp [sizeJ] at hf
    | succ f =>
      have hser : serV Json.null ++ rest = 'n' :: (['u', 'l', 'l'] ++ rest) := by
        simp [serV]
      rw [hser, parseVal_succ_null, stripPre_append]
      rfl
  | .bool b, f, rest, hf, hrest => by
    cases f with
    | zero => simp [sizeJ] at hf
    | succ f =>
      cases b with
      | true =>
        have hser : serV (Json.bool true) ++ rest = 't' :: (['r', 'u', 'e'] ++ rest) := by
          simp [serV]
        rw [hser, parseVal_succ_true, stripPre_append]
        rfl
      | false =>
        have hser : serV (Json.bool false) ++ rest = 'f' :: (['a', 'l', 's', 'e'] ++ rest) := by
          simp [serV]
        rw [hser, parseVal_succ_false, stripPre_append]
        rfl
  | .num i, f, rest, hf, hrest => by
    cases f with
    | zero => simp [sizeJ] at hf
    | succ f =>
      by_cases hi : i < 0
      · have hser : serV (Json.num i) ++ rest = '-' :: (natChars i.natAbs ++ rest) := by
          simp [serV, intChars, hi]
        rw [hser, parseVal_succ_minus, parseNumPos_natChars _ _ hrest]
        have hi2 : -((i.natAbs : Nat) : Int) = i := by omega
        show some (Json.num (-((i.natAbs : Nat) : Int)), rest) = some (Json.num i, rest)
        rw [hi2]
      · obtain ⟨d, t, hdt, hd⟩ := natChars_head i.natAbs
        have hser : serV (Json.num i) ++ rest = d :: (t ++ rest) := by
          simp [serV, intChars, hi, hdt]
        rw [hser, parseVal_succ_digit f d _ hd]
        have hback : d :: (t ++ rest) = natChars i.natAbs ++ rest := by
          rw [hdt]
          rfl
        rw [hback, parseNumPos_natChars _ _ hrest]
        have hi2 : ((i.natAbs : Nat) : Int) = i := by omega
        show some (Json.num ((i.natAbs : Nat) : Int), rest) = some (Json.num i, rest)
        rw [hi2]
  | .str s, f, rest, hf, hrest => by
    cases f with
    | zero => simp [sizeJ] at hf
    | succ f =>
      have hser : serV (Json.str s) ++ rest = '"' :: (escChars s.data ++ ('"' :: rest)) := by
        simp [serV]
      rw [hser, parseVal_succ_quote, parseStrChars_escChars]
      rfl
  | .arr [], f, rest, hf, hrest => by
    cases f with
    | zero => simp [sizeJ] at hf
    | succ f =>
      have hser : serV (Json.arr []) ++ rest = '[' :: ']' :: rest := by
        simp [serV]
      rw [hser, parseVal_succ_arrNil]
  | .arr (x :: xs), f, rest, hf, hrest => by
    cases f with
    | zero => simp [sizeJ] at hf
    | succ f =>
      obtain ⟨d, t, hdt, hdne⟩ := serV_head x
      have hser : serV (Json.arr (x :: xs)) ++ rest
          = '[' :: (d :: (t ++ (serElemsTl xs ++ rest))) := by
        simp [serV, hdt, List.append_assoc]
      rw [hser, parseVal_succ_arrCons f d _ hdne]
      have hback : d :: (t ++ (serElemsTl xs ++ rest))
          = serV x ++ (serElemsTl xs ++ rest) := by
        rw [hdt]
        rfl
      rw [hback, rtElems x xs f rest (by simp [sizeJ] at hf; omega)]
      rfl
  | .obj [], f, rest, hf, hrest => by
    cases f with
    | zero => simp [sizeJ] at hf
    | succ f =>
      have hser : serV (Json.obj []) ++ rest = '\x7b' :: '\x7d' :: rest := by
        simp [serV]
      rw [hser, parseVal_succ_objNil]
  | .obj ((k, v) :: fs), f, rest, hf, hrest => by
    cases f with
    | zero => simp [sizeJ] at hf
    | succ f =>
      have hser : serV (Json.obj ((k, v) :: fs)) ++ rest
          = '\x7b' :: ('"' :: (escChars k.data
              ++ ('"' :: (':' :: (serV v ++ (serFieldsTl fs ++ rest)))))) := by
        simp [serV, serField, List.append_assoc]
      rw [hser, parseVal_succ_objQuote]
      have hback : ('"' : Char) :: (escChars k.data
            ++ ('"' :: (':' :: (serV v ++ (serFieldsTl fs ++ rest)))))
          = serField (k, v) ++ (serFieldsTl fs ++ rest) := by
        simp [serField, List.append_assoc]
      rw [hback, rtFields k v fs f rest (by simp [sizeJ] at hf; omega)]
      rfl
termination_by v _ _ _ _ => sizeJ v
decreasing_by all_goals (simp only [sizeJ, sizeL, sizeF]; omega)

theorem rtElems : ∀ (x : Json) (xs : List Json) (f : Nat) (rest : Chars),
    sizeL (x :: xs) ≤ f →
    parseElems f (serV x ++ (serElemsTl xs ++ rest)) = some (x :: xs, rest)
  | x, [], f, rest, hs => by
    cases f with
    | zero =>
      rw [show sizeL [x] = 1 + sizeJ x + sizeL [] from by simp [sizeL]] at hs
      omega
    | succ f =>
      have hx : sizeJ x ≤ f := by
        rw [show sizeL [x] = 1 + sizeJ x + sizeL [] from by simp [sizeL]] at hs
        omega
      have htl : serElemsTl ([] : List Json) ++ rest = ']' :: rest := by
        simp [serElemsTl]
      rw [htl, parseElems_succ, rtVal x f (']' :: rest) hx (by rfl)]
      rfl
  | x, y :: ys, f, rest, hs => by
    cases f with
    | zero =>
      rw [show sizeL (x :: y :: ys) = 1 + sizeJ x + sizeL (y :: ys) from by simp [sizeL]] at hs
      omega
    | succ f =>
      have hx : sizeJ x ≤ f := by
        rw [show sizeL (x :: y :: ys) = 1 + sizeJ x + sizeL (y :: ys) from by simp [sizeL]] at hs
        omega
      have hy : sizeL (y :: ys) ≤ f := by
        rw [show sizeL (x :: y :: ys) = 1 + sizeJ x + sizeL (y :: ys) from by simp [sizeL]] at hs
        omega
      have htl : serElemsTl (y :: ys) ++ rest = ',' :: (serV y ++ (serElemsTl ys ++ rest)) := by
        simp [serElemsTl, List.append_assoc]
      rw [htl, parseElems_succ, rtVal x f _ hx (by rfl)]
      simp only [rtElems y ys f rest hy]
      rfl
termination_by x xs _ _ _ => sizeL (x :: xs)
decreasing_by all_goals (simp only [sizeJ, sizeL, sizeF]; omega)

theorem rtFields : ∀ (k : String) (v : Json) (fs : List (String × Json)) (f : Nat) (rest : Chars),
    sizeF ((k, v) :: fs) ≤ f →
    parseFields f (serField (k, v) ++ (serFieldsTl fs ++ rest)) = some ((k, v) :: fs, rest)
  | k, v, [], f, rest, hs => by
    cases f with
    | zero =>
      rw [show sizeF [(k, v)] = 1 + sizeJ v + sizeF [] from by simp [sizeF]] at hs
      omega
    | succ f =>
      have hv : sizeJ v ≤ f := by
        rw [show sizeF [(k, v)] = 1 + sizeJ v + sizeF [] from by simp [sizeF]] at hs
        omega
      have hser : serField (k, v) ++ (serFieldsTl [] ++ rest)
          = '"' :: (escChars k.data ++ ('"' :: (':' :: (serV v ++ (serFieldsTl [] ++ rest))))) := by
        simp [serField, List.append_assoc]
      rw [hser, parseFields_succ, parseStrChars_escChars]
      simp only [rtVal v f _ hv (numStop_serFieldsTl [] rest)]
      have htl : serFieldsTl ([] : List (String × Json)) ++ rest = '\x7d' :: rest := by
        simp [serFieldsTl]
      rw [htl]
      rfl
  | k, v, (k2, v2) :: fs2, f, rest, hs => by
    cases f with
    | zero =>
      rw [show sizeF ((k, v) :: (k2, v2) :: fs2)
          = 1 + sizeJ v + sizeF ((k2, v2) :: fs2) from by simp [sizeF]] at hs
      omega
    | succ f =>
      have hv : sizeJ v ≤ f := by
        rw [show sizeF ((k, v) :: (k2, v2) :: fs2)
            = 1 + sizeJ v + sizeF ((k2, v2) :: fs2) from by simp [sizeF]] at hs
        omega
      have hf2 : sizeF ((k2, v2) :: fs2) ≤ f := by
        rw [show sizeF ((k, v) :: (k2, v2) :: fs2)
            = 1 + sizeJ v + sizeF ((k2, v2) :: fs2) from by simp [sizeF]] at hs
        omega
      have hser : serField (k, v) ++ (serFieldsTl ((k2, v2) :: fs2) ++ rest)
          = '"' :: (escChars k.data
              ++ ('"' :: (':' :: (serV v ++ (serFieldsTl ((k2, v2) :: fs2) ++ rest))))) := by
        simp [serField, List.append_assoc]
      rw [hser, parseFields_succ, parseStrChars_escChars]
      simp only [rtVal v f _ hv (numStop_serFieldsTl ((k2, v2) :: fs2) rest)]
      have htl : serFieldsTl ((k2, v2) :: fs2) ++ rest
          = ',' :: (serField (k2, v2) ++ (serFieldsTl fs2 ++ rest)) := by
        simp [serFieldsTl, List.append_assoc]
      rw [htl]
      simp only [rtFields k2 v2 fs2 f rest hf2]
      rfl
termination_by k v fs _ _ _ => sizeF ((k, v) :: fs)
decreasing_by all_goals (simp only [sizeJ, sizeL, sizeF]; omega)

end

/-! ## Fuel bound: the serialized length dominates the node count -/

mutual

theorem sizeJ_le_len : ∀ v : Json, sizeJ v ≤ (serV v).length
  | .null => by simp [serV, sizeJ]
  | .bool b => by cases b <;> simp [serV, sizeJ]
  | .num i => by
    by_cases hi : i < 0
    · simp [serV, sizeJ, intChars, hi]
    · obtain ⟨d, t, hdt, _⟩ := natChars_head i.natAbs
      simp [serV, sizeJ, intChars, hi, hdt]
  | .str s => by simp [serV, sizeJ]
  | .arr [] => by simp [serV, sizeJ, sizeL]
  | .arr (x :: xs) => by
    have h1 := sizeJ_le_len x
    have h2 := sizeL_succ_le_len xs
    simp only [serV, sizeJ, sizeL, List.length_cons, List.length_append]
    omega
  | .obj [] => by simp [serV, sizeJ, sizeF]
  | .obj ((k, v) :: fs) => by
    have h1 := sizeJ_le_len v
    have h2 := sizeF_succ_le_len fs
    simp only [serV, serField, sizeJ, sizeF, List.length_cons, List.length_append]
    omega
termination_by v => sizeJ v
decreasing_by all_goals (simp only [sizeJ, sizeL, sizeF]; omega)

theorem sizeL_succ_le_len : ∀ xs : List Json, sizeL xs + 1 ≤ (serElemsTl xs).length
  | [] => by simp [serElemsTl, sizeL]
  | y :: ys => by
    have h1 := sizeJ_le_len y
    have h2 := sizeL_succ_le_len ys
    simp only [serElemsTl, sizeL, List.length_cons, List.length_append]
    omega
termination_by xs => sizeL xs
decreasing_by all_goals (simp only [sizeJ, sizeL, sizeF]; omega)

theorem sizeF_succ_le_len : ∀ fs : List (String × Json), sizeF fs + 1 ≤ (serFieldsTl fs).length
  | [] => by simp [serFieldsTl, sizeF]
  | (k2, v2) :: fs2 => by
    have h1 := sizeJ_le_len v2
    have h2 := sizeF_succ_le_len fs2
    simp only [serFieldsTl, serField, sizeF, List.length_cons, List.length_append]
    omega
termination_by fs => sizeF fs
decreasing_by all_goals (simp only [sizeJ, sizeL, sizeF]; omega)

end

/-- The serialize/parse pair round-trips on every modelled JSON value. -/
theorem parse_serialize (v : Json) : Json.parse (Json.serialize v) = some v := by
  have hlen : sizeJ v ≤ (serV v).length + 1 :=
    le_trans (sizeJ_le_len v) (Nat.le_succ _)
  have h := rtVal v ((serV v).length + 1) [] hlen rfl
  rw [List.append_nil] at h
  show (match parseVal ((serV v).length + 1) (serV v) with
        | some (w, []) => some w
        | _ => none) = some v
  rw [h]

/-! ## Claim theorems: the settings HTTP surface (C9, C10) -/

/-- C9: `GET /settings` always answers with status 200: when the stored
string parses as JSON the body is the parsed document, and when it is
malformed (fails to parse) the body is the empty JSON object — a corrupted
stored state never yields an error response on read. -/
theorem get_settings_always_200 (s : String) :
    (get_settings s).1 = 200
  ∧ (∀ v, Json.parse s = some v → (get_settings s).2 = v)
  ∧ (Json.parse s = none → (get_settings s).2 = Json.obj []) := by
  refine ⟨rfl, ?_, ?_⟩
  · intro v hv
    show (Json.parse s).getD (Json.obj []) = v
    rw [hv]
    rfl
  · intro hn
    show (Json.parse s).getD (Json.obj []) = Json.obj []
    rw [hn]
    rfl

/-- Witness for C9: a well-formed stored document is echoed back parsed,
and a malformed one degrades to the empty object, both with status 200. -/
theorem get_settings_always_200_witness :
    (get_settings "null").1 = 200 ∧ (get_settings "null").2 = Json.null
  ∧ (get_settings "x").1 = 200 ∧ (get_settings "x").2 = Json.obj [] :=
  ⟨(get_settings_always_200 "null").1,
   (get_settings_always_200 "null").2.1 Json.null rfl,
   (get_settings_always_200 "x").1,
   (get_settings_always_200 "x").2.2 rfl⟩

/-- C10: for every JSON value `v`, a `POST /settings` with body `v`
(which stores the serialized form of `v` and answers 200) followed by a
`GET /settings` returns exactly `v` — the store-then-read composition
through the serialize/parse pair is the identity. -/
theorem update_then_get_round_trip (v : Json) :
    (update_settings v).status = 200
  ∧ get_settings (update_settings v).newSettings = (200, v) := by
  refine ⟨rfl, ?_⟩
  show (200, (Json.parse (Json.serialize v)).getD (Json.obj [])) = (200, v)
  rw [parse_serialize]
  rfl

end CChat
